import Mathlib

/-!
Verification of the stock-price fetching and CSV-serialization pipeline.

The development shallowly embeds the two modules of the repository:

* the time-series fetcher (module with `StockPrice`, `_prepare_rows` and
  `fetch_and_save_stock_prices`, talking to the Alpha Vantage API), and
* the quote-snapshot fetcher (module with `fetch_stock_prices`, talking to
  the Yahoo Finance batch quote API).

JSON payloads are modelled by the inductive `Json`; the injectable HTTP
transport is modelled as a function from the requested symbol (the only
request parameter that varies) to the payload its response would carry, and
each fetch model additionally returns the number of transport calls made.
Fallible operations return `Except String`; the CSV file written on success
is the list of its rows (header row first), and an erroring run writes
nothing (`Option`).

Numbers handled by the code (Python floats) are modelled as rationals.
-/

/-- Digit character for a value below ten (values ten and above are clamped,
they never occur at call sites). -/
def digitChar : Nat → Char
  | 0 => '0'
  | 1 => '1'
  | 2 => '2'
  | 3 => '3'
  | 4 => '4'
  | 5 => '5'
  | 6 => '6'
  | 7 => '7'
  | 8 => '8'
  | _ => '9'

/-- Numeric value of a decimal digit character. -/
def charDigitVal (c : Char) : Option Nat :=
  if '0' ≤ c ∧ c ≤ '9' then some (c.toNat - 48) else none

def isDigitChar (c : Char) : Bool := (charDigitVal c).isSome

def allDigits (cs : List Char) : Bool := cs.all isDigitChar

/-- Decimal digit characters of a positive number, most significant first;
the first argument is recursion fuel (any bound on the number works). -/
def natCharsAux : Nat → Nat → List Char
  | 0, _ => []
  | _ + 1, 0 => []
  | fuel + 1, n + 1 => natCharsAux fuel ((n + 1) / 10) ++ [digitChar ((n + 1) % 10)]

/-- Decimal rendering of a natural number, as Python's str does it. -/
def natChars (n : Nat) : List Char := if n = 0 then ['0'] else natCharsAux n n

/-- Decimal rendering of an integer, as Python's str does it: an optional
minus sign followed by the digits, no separators. -/
def intChars (i : Int) : List Char :=
  if i < 0 then '-' :: natChars i.natAbs else natChars i.natAbs

def intToStr (i : Int) : String := String.mk (intChars i)

/-- Left-pad a digit string with zeros to the given width. -/
def padChars (k : Nat) (cs : List Char) : List Char :=
  List.replicate (k - cs.length) '0' ++ cs

def pad2 (n : Nat) : List Char := padChars 2 (natChars n)

/-- Left-to-right accumulation of a digit string's value. -/
def natValAux : Nat → List Char → Option Nat
  | acc, [] => some acc
  | acc, c :: cs =>
    match charDigitVal c with
    | some d => natValAux (acc * 10 + d) cs
    | none => none

def parseNatChars (cs : List Char) : Option Nat :=
  if cs = [] then none else natValAux 0 cs

/-- Split a character list at its (unique) decimal point, if any. -/
def splitAtDot : List Char → Option (List Char × List Char)
  | [] => none
  | c :: rest =>
    if c = '.' then (if rest.contains '.' then none else some ([], rest))
    else (splitAtDot rest).map (fun p => (c :: p.1, p.2))

/-- Value of an unsigned decimal literal, with or without a decimal point
(the fragment of Python's float conversion the program exercises). -/
def parseDecCore (cs : List Char) : Option Rat :=
  match splitAtDot cs with
  | none => (parseNatChars cs).map (fun n => (n : Rat))
  | some (a, b) =>
    if a = [] && b = [] then none
    else
      match (if a = [] then some 0 else parseNatChars a),
            (if b = [] then some 0 else parseNatChars b) with
      | some ia, some fb => some ((ia : Rat) + (fb : Rat) / (10 : Rat) ^ b.length)
      | _, _ => none

/-- Python's float applied to a decimal string literal, possibly signed. -/
def parseDecStr (s : String) : Option Rat :=
  match s.toList with
  | [] => none
  | c :: rest => if c = '-' then (parseDecCore rest).map (fun q => -q) else parseDecCore (c :: rest)

/-- Nearest integer, ties to even: the rounding used by Python's fixed-point
formatting. -/
def rheInt (x : Rat) : Int :=
  let f := x.floor
  let r := x - (f : Rat)
  if r < 1 / 2 then f
  else if 1 / 2 < r then f + 1
  else if f % 2 = 0 then f else f + 1

/-- Python's fixed-point formatting with four digits of precision, the
semantics of the format specification .4f applied to the value. -/
def formatFixed4 (q : Rat) : String :=
  let n := rheInt (q * 10000)
  let m := n.natAbs
  let cs := natChars (m / 10000) ++ '.' :: padChars 4 (natChars (m % 10000))
  String.mk (if n < 0 then '-' :: cs else cs)

/-- Drop one leading minus sign, if present. -/
def dropSign (cs : List Char) : List Char :=
  match cs with
  | c :: rest => if c = '-' then rest else c :: rest
  | [] => []

/-- Recognizer for fixed-point notation with exactly four digits after the
decimal point: an optional minus sign, one or more digits, a point, and
exactly four digits; in particular no exponent marker can appear. -/
def isFixedPoint4 (s : String) : Bool :=
  match (dropSign s.toList).reverse with
  | a :: b :: c :: d :: e :: rest =>
    e = '.' && allDigits [a, b, c, d] && !rest.isEmpty && allDigits rest
  | _ => false

/-- Truncation toward zero of a rational, the semantics of Python's int
applied to a float. -/
def ratTrunc (q : Rat) : Int :=
  if 0 ≤ q.num then ((q.num.toNat / q.den : Nat) : Int)
  else -((((-q.num).toNat / q.den : Nat) : Int))

/-- Python's str.strip: remove leading and trailing whitespace. -/
def isSpaceChar (c : Char) : Bool :=
  c = ' ' || c = '\t' || c = '\n' || c = '\r'

def pyStrip (s : String) : String :=
  String.mk ((((s.toList.dropWhile isSpaceChar).reverse).dropWhile isSpaceChar).reverse)

/-- Python's str.upper restricted to ASCII, which is all the program feeds it. -/
def upChar (c : Char) : Char :=
  if 'a' ≤ c ∧ c ≤ 'z' then Char.ofNat (c.toNat - 32) else c

def pyUpper (s : String) : String := String.mk (s.toList.map upChar)

/-- Lexicographic comparison of character lists by code point, the order
Python uses on strings. -/
def charListLt : List Char → List Char → Bool
  | _, [] => false
  | [], _ :: _ => true
  | a :: as, b :: bs =>
    if a < b then true
    else if b < a then false
    else charListLt as bs

def strLtB (s1 s2 : String) : Bool := charListLt s1.toList s2.toList

/-- Map over a list in the Except monad, stopping at the first error, as a
Python for-loop over fallible steps does. -/
def mapME {α β : Type} (f : α → Except String β) : List α → Except String (List β)
  | [] => .ok []
  | a :: as =>
    match f a with
    | .error e => .error e
    | .ok b => (mapME f as).map (fun bs => b :: bs)

def isErr {α : Type} : Except String α → Bool
  | .error _ => true
  | .ok _ => false

/-! ## JSON values and Python-dict style access -/

/-- JSON values as delivered by response.json(). Objects keep their key
order, as Python dicts do. -/
inductive Json where
  | str : String → Json
  | num : Rat → Json
  | bool : Bool → Json
  | null : Json
  | arr : List Json → Json
  | obj : List (String × Json) → Json

/-- First binding of a key in an association list (keys of a parsed JSON
object are unique, so this is dict lookup). -/
def assocLookup (k : String) : List (String × Json) → Option Json
  | [] => none
  | kv :: rest => if kv.1 = k then some kv.2 else assocLookup k rest

/-- Python truthiness of a JSON-derived value. -/
def jTruthy : Json → Bool
  | .str s => !(s.toList.isEmpty)
  | .num q => if q = 0 then false else true
  | .bool b => b
  | .null => false
  | .arr xs => !xs.isEmpty
  | .obj fs => !fs.isEmpty

/-- Python's float applied to a JSON-derived value. -/
def jFloat : Json → Except String Rat
  | .num q => .ok q
  | .str s =>
    match parseDecStr s with
    | some q => .ok q
    | none => .error ("could not convert string to float: " ++ s)
  | .bool b => .ok (if b then 1 else 0)
  | _ => .error "float conversion failed"

/-! ## Timestamps

Python datetime values parsed by datetime.fromisoformat, compared
field-lexicographically (which for valid dates is instant order), and
rendered back by isoformat. -/

structure DateTime where
  year : Nat
  month : Nat
  day : Nat
  hour : Nat
  minute : Nat
  second : Nat
deriving DecidableEq

def isLeapYear (y : Nat) : Bool :=
  (y % 4 = 0 && !(y % 100 = 0)) || y % 400 = 0

def daysInMonth (y m : Nat) : Nat :=
  if m = 2 then (if isLeapYear y then 29 else 28)
  else if m = 4 ∨ m = 6 ∨ m = 9 ∨ m = 11 then 30
  else 31

/-- Construct a datetime, validating field ranges as the Python constructor
does. -/
def mkDT (y mo d hh mi ss : Nat) : Option DateTime :=
  if 1 ≤ y ∧ y ≤ 9999 ∧ 1 ≤ mo ∧ mo ≤ 12 ∧ 1 ≤ d ∧ d ≤ daysInMonth y mo
      ∧ hh ≤ 23 ∧ mi ≤ 59 ∧ ss ≤ 59
  then some ⟨y, mo, d, hh, mi, ss⟩ else none

def d2v (a b : Char) : Option Nat :=
  match charDigitVal a, charDigitVal b with
  | some x, some y => some (10 * x + y)
  | _, _ => none

def d4v (a b c d : Char) : Option Nat :=
  match d2v a b, d2v c d with
  | some x, some y => some (100 * x + y)
  | _, _ => none

/-- Python's datetime.fromisoformat on the shapes the provider emits: a
plain date, or a date and a time separated by T or a space. -/
def parseIsoDateTime (s : String) : Option DateTime :=
  match s.toList with
  | [y1, y2, y3, y4, '-', a1, a2, '-', b1, b2] =>
    match d4v y1 y2 y3 y4, d2v a1 a2, d2v b1 b2 with
    | some y, some mo, some d => mkDT y mo d 0 0 0
    | _, _, _ => none
  | [y1, y2, y3, y4, '-', a1, a2, '-', b1, b2, sep, h1, h2, ':', i1, i2, ':', s1, s2] =>
    if sep = 'T' ∨ sep = ' ' then
      match d4v y1 y2 y3 y4, d2v a1 a2, d2v b1 b2, d2v h1 h2, d2v i1 i2, d2v s1 s2 with
      | some y, some mo, some d, some hh, some mi, some ss => mkDT y mo d hh mi ss
      | _, _, _, _, _, _ => none
    else none
  | _ => none

/-- Python's datetime.isoformat on a microsecond-free naive datetime. -/
def isoformatDT (d : DateTime) : String :=
  String.mk (padChars 4 (natChars d.year) ++ '-' :: pad2 d.month ++ '-' :: pad2 d.day
    ++ 'T' :: pad2 d.hour ++ ':' :: pad2 d.minute ++ ':' :: pad2 d.second)

/-- Field-lexicographic comparison of datetimes, the order Python's datetime
comparison realizes. -/
def dtLeB (a b : DateTime) : Bool :=
  if a.year ≠ b.year then decide (a.year < b.year)
  else if a.month ≠ b.month then decide (a.month < b.month)
  else if a.day ≠ b.day then decide (a.day < b.day)
  else if a.hour ≠ b.hour then decide (a.hour < b.hour)
  else if a.minute ≠ b.minute then decide (a.minute < b.minute)
  else decide (a.second ≤ b.second)

/-- Civil date from days since the Unix epoch (proleptic Gregorian). -/
def civilFromDays (z0 : Int) : Int × Nat × Nat :=
  let z := z0 + 719468
  let era := z.fdiv 146097
  let doe := (z - era * 146097).toNat
  let yoe := (doe - doe / 1460 + doe / 36524 - doe / 146096) / 365
  let doy := doe - (365 * yoe + yoe / 4 - yoe / 100)
  let mp := (5 * doy + 2) / 153
  let d := doy - (153 * mp + 2) / 5 + 1
  let m := if mp < 10 then mp + 3 else mp - 9
  ((yoe : Int) + era * 400 + (if m ≤ 2 then 1 else 0), m, d)

def yearChars (y : Int) : List Char :=
  if y < 0 then '-' :: padChars 4 (natChars y.natAbs) else padChars 4 (natChars y.natAbs)

/-- ISO-8601 UTC rendering of a whole number of epoch seconds: the result of
datetime.fromtimestamp(t, timezone.utc).isoformat() once the range check of
fromtimestamp has passed. -/
def isoUtcOfEpoch (t : Int) : String :=
  let days := t.fdiv 86400
  let sod := (t - days * 86400).toNat
  let c := civilFromDays days
  String.mk (yearChars c.1 ++ '-' :: pad2 c.2.1 ++ '-' :: pad2 c.2.2
    ++ 'T' :: pad2 (sod / 3600) ++ ':' :: pad2 (sod % 3600 / 60) ++ ':' :: pad2 (sod % 60)
    ++ '+' :: '0' :: '0' :: ':' :: '0' :: '0' :: [])

/-- Python's datetime.fromtimestamp(t, timezone.utc) followed by isoformat.
fromtimestamp raises (ValueError or OverflowError) for any epoch outside
the datetime year range 1 to 9999, that is outside
-62135596800 to 253402300799 seconds. -/
def epochToIsoUtc (t : Int) : Except String String :=
  if -62135596800 ≤ t ∧ t ≤ 253402300799 then .ok (isoUtcOfEpoch t)
  else .error "timestamp out of range"

/-! ## Time-series fetcher (Alpha Vantage module) -/

/-- One stock price data point, as the source's StockPrice dataclass. -/
structure StockPrice where
  symbol : String
  timestamp : DateTime
  «open» : Rat
  high : Rat
  low : Rat
  close : Rat
  volume : Int
deriving DecidableEq

def getFloat (fields : List (String × Json)) (k : String) : Except String Rat :=
  match assocLookup k fields with
  | some v => jFloat v
  | none => .error ("KeyError: " ++ k)

/-- Volume extraction of from_alphavantage: int(float(x)) of the 6-numbered
field when present, else of the 5-numbered field, else zero. -/
def volumeOf (payload : List (String × Json)) : Except String Int :=
  match assocLookup "6. volume" payload with
  | some j => (jFloat j).map ratTrunc
  | none =>
    match assocLookup "5. volume" payload with
    | some j => (jFloat j).map ratTrunc
    | none => Except.ok 0

/-- StockPrice.from_alphavantage: build a record from one time-series entry.
The timestamp is parsed from ISO-8601, the four OHLC fields are converted
with float, and the volume follows the two-key fallback with default 0. -/
def StockPrice.from_alphavantage (symbol : String) (timestamp : String)
    (payload : List (String × Json)) : Except String StockPrice :=
  match parseIsoDateTime timestamp with
  | none => .error ("Invalid isoformat string: " ++ timestamp)
  | some ts =>
    match getFloat payload "1. open" with
    | .error e => .error e
    | .ok o =>
      match getFloat payload "2. high" with
      | .error e => .error e
      | .ok h =>
        match getFloat payload "3. low" with
        | .error e => .error e
        | .ok l =>
          match getFloat payload "4. close" with
          | .error e => .error e
          | .ok c =>
            match volumeOf payload with
            | .error e => .error e
            | .ok v =>
              .ok { symbol := symbol, timestamp := ts, «open» := o, high := h, low := l,
                    close := c, volume := v }

/-- Sort key comparison used by _prepare_rows: the tuple (symbol, timestamp)
compared ascending. -/
def recLEb (p q : StockPrice) : Bool :=
  if p.symbol = q.symbol then dtLeB p.timestamp q.timestamp
  else strLtB p.symbol q.symbol

def recLE (p q : StockPrice) : Prop := recLEb p q = true

instance : DecidableRel recLE := fun p q => inferInstanceAs (Decidable (recLEb p q = true))

/-- Python's sorted with key (symbol, timestamp): a stable sort under
`recLE`. -/
def sortRecords (data : List StockPrice) : List StockPrice :=
  List.insertionSort recLE data

/-- One CSV data row of the time-series schema. -/
def stockPriceRow (p : StockPrice) : List String :=
  [p.symbol, isoformatDT p.timestamp, formatFixed4 p.«open», formatFixed4 p.high,
   formatFixed4 p.low, formatFixed4 p.close, intToStr p.volume]

def tsHeaderRow : List String :=
  ["symbol", "timestamp", "open", "high", "low", "close", "volume"]

/-- The module's _prepare_rows: header row, then one row per record in
(symbol, timestamp) ascending order. -/
def _prepare_rows (data : List StockPrice) : List (List String) :=
  tsHeaderRow :: (sortRecords data).map stockPriceRow

/-- Test whether the second list starts with the first. -/
def listStarts : List Char → List Char → Bool
  | [], _ => true
  | _ :: _, [] => false
  | p :: ps, c :: cs => p = c && listStarts ps cs

/-- Key test for the time-series top-level entry: startswith on the two
recognized families. -/
def seriesKeyTest (k : String) : Bool :=
  listStarts "Time Series".toList k.toList
    || listStarts "Monthly Adjusted Time Series".toList k.toList

def findSeriesEntry : List (String × Json) → Option (String × Json)
  | [] => none
  | kv :: rest => if seriesKeyTest kv.1 then some kv else findSeriesEntry rest

/-- Extraction of all records of one symbol's payload: locate the first
top-level key of the recognized families, require a mapping of timestamp to
field mapping, and convert every entry. -/
def extractSeries (symbol : String) (payload : Json) : Except String (List StockPrice) :=
  match payload with
  | .obj fields =>
    match findSeriesEntry fields with
    | none => .error ("Unexpected response format for " ++ symbol)
    | some kv =>
      match kv.2 with
      | .obj series =>
        mapME (fun e =>
          match e.2 with
          | .obj f2 => StockPrice.from_alphavantage symbol e.1 f2
          | _ => .error ("Time series entry for " ++ symbol ++ " at " ++ e.1
              ++ " is not a mapping")) series
      | _ => .error ("Time series data for " ++ symbol ++ " is not a mapping")
  | _ => .error ("Unexpected response format for " ++ symbol)

/-- The per-symbol fetch loop of fetch_and_save_stock_prices: one transport
call per symbol, stopping at the first failure; also counts transport
calls. -/
def collectSeries (t : String → Json) : List String → Except String (List StockPrice) × Nat
  | [] => (.ok [], 0)
  | s :: rest =>
    match extractSeries s (t s) with
    | .error e => (.error e, 1)
    | .ok ps =>
      let r := collectSeries t rest
      ((r.fst).map (fun qs => ps ++ qs), r.snd + 1)

/-- fetch_and_save_stock_prices: collect all records, then produce the CSV
rows; the rows are only written when every step succeeded. -/
def fetch_and_save_stock_prices (t : String → Json) (symbols : List String) :
    Except String (List (List String)) × Nat :=
  let r := collectSeries t symbols
  ((r.fst).map _prepare_rows, r.snd)

/-- Contents of the destination file after a run: rows on success, nothing
on error (the file is only opened after all rows are prepared). -/
def writtenTsFile (t : String → Json) (symbols : List String) : Option (List (List String)) :=
  (fetch_and_save_stock_prices t symbols).fst.toOption

/-- Claim predicate: the payload has no top-level key of the recognized
families (a non-object payload has no keys at all). -/
def seriesKeyMissing (p : Json) : Bool :=
  match p with
  | .obj fs => (findSeriesEntry fs).isNone
  | _ => true

/-- Claim predicate: the located series value is not a mapping, or one of
its entries' values is not a mapping. -/
def hasBadEntry (p : Json) : Bool :=
  match p with
  | .obj fs =>
    match findSeriesEntry fs with
    | some (_, .obj series) => series.any (fun e => match e.2 with | .obj _ => false | _ => true)
    | some (_, _) => true
    | none => false
  | _ => false

/-! ## Quote-snapshot fetcher (Yahoo Finance module) -/

/-- One output row of the quote schema. The price and currency cells carry
the raw JSON value the provider sent (the writer stringifies them); a
missing quote yields empty-string cells. -/
structure QuoteRow where
  symbol : String
  price : Json
  currency : Json
  timestamp : String

/-- Normalization of the input symbols: keep those that are non-blank after
stripping, stripped and uppercased. -/
def normalizedSymbols (symbols : List String) : List String :=
  (symbols.filter (fun s => !(pyStrip s).toList.isEmpty)).map (fun s => pyUpper (pyStrip s))

/-- Navigate payload.get("quoteResponse", dict()).get("result", list()):
the list of quote objects the response carries. -/
def quotesOf (payload : Json) : Except String (List Json) :=
  match payload with
  | .obj fs =>
    match (assocLookup "quoteResponse" fs).getD (.obj []) with
    | .obj fs2 =>
      match (assocLookup "result" fs2).getD (.arr []) with
      | .arr quotes => .ok quotes
      | _ => .error "result is not a list"
    | _ => .error "quoteResponse is not a mapping"
  | _ => .error "payload is not a mapping"

/-- One entry of the lookup dict: the quote keyed by its uppercased symbol
field (empty string when absent). -/
def quoteKeyOf (q : Json) : Except String (String × Json) :=
  match q with
  | .obj fs =>
    match (assocLookup "symbol" fs).getD (.str "") with
    | .str s => .ok (pyUpper s, .obj fs)
    | _ => .error "symbol field is not a string"
  | _ => .error "quote is not a mapping"

/-- The dict comprehension building the symbol-to-quote lookup. -/
def buildQuoteLookup (quotes : List Json) : Except String (List (String × Json)) :=
  mapME quoteKeyOf quotes

/-- Dict lookup where a later duplicate key overwrites an earlier one, as in
a Python dict comprehension. -/
def dictGet (pairs : List (String × Json)) (k : String) : Option Json :=
  assocLookup k pairs.reverse

def lookupOf (payload : Json) : Except String (List (String × Json)) :=
  (quotesOf payload).bind buildQuoteLookup

/-- Field access on a quote object. -/
def jGet (q : Json) (k : String) : Option Json :=
  match q with
  | .obj fs => assocLookup k fs
  | _ => none

/-- The timestamp cell computed from quote.get("regularMarketTime"): the
code converts with fromtimestamp (which raises out of range) only when the
value is truthy, so a missing, null or zero market time yields the empty
string. -/
def quoteTimestamp (mt : Option Json) : Except String String :=
  match mt with
  | none => .ok ""
  | some j =>
    if jTruthy j then
      match j with
      | .num q => if q.den = 1 then epochToIsoUtc q.num else .error "timestamp is fractional"
      | _ => .error "timestamp is not a number"
    else .ok ""

/-- One output row for one normalized symbol: empty cells when the lookup
has no quote for it, otherwise the quote's fields with defaults. -/
def makeQuoteRow (lk : List (String × Json)) (s : String) : Except String QuoteRow :=
  match dictGet lk s with
  | none => .ok { symbol := s, price := .str "", currency := .str "", timestamp := "" }
  | some q =>
    (quoteTimestamp (jGet q "regularMarketTime")).map (fun ts =>
      { symbol := s, price := (jGet q "regularMarketPrice").getD (.str ""),
        currency := (jGet q "currency").getD (.str ""), timestamp := ts })

/-- fetch_stock_prices: validate the symbols (before any transport call),
issue the single batched request, and build one row per normalized symbol
in input order. The transport is modelled by the payload its one possible
call returns; the second component counts transport calls. -/
def fetch_stock_prices (payload : Json) (symbols : List String) :
    Except String (List QuoteRow) × Nat :=
  if symbols = [] then (.error "At least one stock symbol must be provided", 0)
  else
    let normalized := normalizedSymbols symbols
    if normalized = [] then (.error "Symbols must not be empty or whitespace", 0)
    else
      match lookupOf payload with
      | .error e => (.error e, 1)
      | .ok lk => (mapME (makeQuoteRow lk) normalized, 1)

/-- Stringification the csv.DictWriter applies to cell values. -/
def cellStr : Json → String
  | .str s => s
  | .num q => if q.den = 1 then intToStr q.num else String.mk (intChars q.num ++ '/' :: natChars q.den)
  | .bool b => if b then "True" else "False"
  | .null => ""
  | _ => ""

def quoteHeaderRow : List String := ["symbol", "price", "currency", "timestamp"]

def renderQuoteRow (r : QuoteRow) : List String :=
  [r.symbol, cellStr r.price, cellStr r.currency, r.timestamp]

/-- Contents of the quote-mode CSV file: the fixed header written first by
writeheader, then one rendered row per QuoteRow; nothing on error. -/
def quoteCsvFile (payload : Json) (symbols : List String) : Option (List (List String)) :=
  ((fetch_stock_prices payload symbols).fst.toOption).map
    (fun rows => quoteHeaderRow :: rows.map renderQuoteRow)

/-- Distinctness of the (symbol, timestamp) sort keys of two records. -/
def recKeyNe (p q : StockPrice) : Prop :=
  p.symbol ≠ q.symbol ∨ p.timestamp ≠ q.timestamp

instance : DecidableRel recKeyNe := fun p q =>
  inferInstanceAs (Decidable (p.symbol ≠ q.symbol ∨ p.timestamp ≠ q.timestamp))

/-! ## Concrete transport stubs and payloads used to test the claims -/

/-- Transport stub answering every request with an empty JSON object. -/
def c1Stub : String → Json := fun _ => Json.obj []

/-- Quote payload holding entries for MSFT, AAPL and GOOG (in that order). -/
def c2Payload : Json :=
  Json.obj [("quoteResponse", Json.obj [("result", Json.arr [
    Json.obj [("symbol", Json.str "MSFT")],
    Json.obj [("symbol", Json.str "AAPL")],
    Json.obj [("symbol", Json.str "GOOG")]])])]

/-- Quote payload holding one AAPL entry. -/
def c2wPayload : Json :=
  Json.obj [("quoteResponse", Json.obj [("result", Json.arr [
    Json.obj [("symbol", Json.str "AAPL"), ("currency", Json.str "USD")]])])]

/-- Time-series transport stub with one valid daily entry for the symbol
requested as lowercase msft. -/
def c3Stub : String → Json := fun s =>
  if s = "msft" then
    Json.obj [("Time Series (Daily)", Json.obj [("2024-01-02", Json.obj [
      ("1. open", Json.str "1.0"), ("2. high", Json.str "2.0"),
      ("3. low", Json.str "0.5"), ("4. close", Json.str "1.5"),
      ("6. volume", Json.str "100")])])]
  else Json.obj []

/-- Transport stub whose payload lacks any recognized time-series key. -/
def c4Stub : String → Json := fun _ => Json.obj [("Note", Json.str "rate limited")]

/-- Quote payload with one MSFT entry, so that a second requested symbol has
no matching entry. -/
def c5Payload : Json :=
  Json.obj [("quoteResponse", Json.obj [("result", Json.arr [
    Json.obj [("symbol", Json.str "MSFT"), ("regularMarketPrice", Json.num 100),
      ("currency", Json.str "USD")]])])]

/-- Time-series field mapping carrying only the 6-numbered volume key. -/
def c6Fields : List (String × Json) :=
  [("1. open", Json.str "1.0"), ("2. high", Json.str "2.0"),
   ("3. low", Json.str "0.5"), ("4. close", Json.str "1.5"),
   ("6. volume", Json.str "123")]

/-- Quote payload whose AAPL entry carries a zero market time. -/
def c7Payload : Json :=
  Json.obj [("quoteResponse", Json.obj [("result", Json.arr [
    Json.obj [("symbol", Json.str "AAPL"), ("regularMarketTime", Json.num 0)]])])]

/-- Quote payload with a single quote carrying a market time. -/
def c7wPayload : Json :=
  Json.obj [("quoteResponse", Json.obj [("result", Json.arr [
    Json.obj [("symbol", Json.str "AAPL"), ("regularMarketTime", Json.num 1700000000)]])])]

/-- Quote payload with no entries at all. -/
def c8Payload : Json :=
  Json.obj [("quoteResponse", Json.obj [("result", Json.arr [])])]

/-- Two concrete records with distinct keys, in two orders. -/
def c10A : StockPrice :=
  { symbol := "MSFT", timestamp := ⟨2024, 1, 2, 0, 0, 0⟩, «open» := 1, high := 2, low := 1,
    close := 2, volume := 10 }

def c10B : StockPrice :=
  { symbol := "AAPL", timestamp := ⟨2024, 1, 3, 0, 0, 0⟩, «open» := 3, high := 4, low := 3,
    close := 4, volume := 20 }

/-- Quote payload with an empty result list. -/
def c3wPayload : Json :=
  Json.obj [("quoteResponse", Json.obj [("result", Json.arr [])])]

/-- One quote object carrying a nonzero market time. -/
def c7wQuote : Json :=
  Json.obj [("symbol", Json.str "AAPL"), ("regularMarketTime", Json.num 1700000000)]

/-! ## Lemmas on digit rendering and parsing -/

theorem charDigitVal_digitChar (r : Nat) (h : r < 10) : charDigitVal (digitChar r) = some r := by
  interval_cases r <;> rfl

theorem isDigitChar_digitChar (r : Nat) : isDigitChar (digitChar r) = true := by
  rcases r with _ | _ | _ | _ | _ | _ | _ | _ | _ | r <;> rfl

theorem natValAux_append (l1 l2 : List Char) :
    ∀ acc, natValAux acc (l1 ++ l2) =
      match natValAux acc l1 with
      | some a => natValAux a l2
      | none => none := by
  induction l1 with
  | nil => intro acc; rfl
  | cons c cs ih =>
    intro acc
    show natValAux acc (c :: (cs ++ l2)) = _
    rcases hc : charDigitVal c with _ | d
    · simp [natValAux, hc]
    · simp only [natValAux, hc, ih]

theorem natValAux_natCharsAux :
    ∀ fuel n, n ≤ fuel → ∀ acc,
      natValAux acc (natCharsAux fuel n) =
        some (acc * 10 ^ (natCharsAux fuel n).length + n) := by
  intro fuel
  induction fuel with
  | zero =>
    intro n h acc
    have hn : n = 0 := Nat.le_zero.mp h
    subst hn
    simp [natCharsAux, natValAux]
  | succ fuel ih =>
    intro n h acc
    match n with
    | 0 => simp [natCharsAux, natValAux]
    | m + 1 =>
      have hdiv : (m + 1) / 10 ≤ fuel := by
        have := Nat.div_lt_self (Nat.succ_pos m) (by omega : 1 < 10)
        omega
      have hmod : (m + 1) % 10 < 10 := Nat.mod_lt _ (by omega)
      rw [show natCharsAux (fuel + 1) (m + 1)
          = natCharsAux fuel ((m + 1) / 10) ++ [digitChar ((m + 1) % 10)] from rfl]
      rw [natValAux_append]
      rw [ih ((m + 1) / 10) hdiv acc]
      show natValAux (acc * 10 ^ (natCharsAux fuel ((m + 1) / 10)).length + (m + 1) / 10)
          [digitChar ((m + 1) % 10)] = _
      rw [show ∀ a, natValAux a [digitChar ((m + 1) % 10)] = some (a * 10 + (m + 1) % 10) by
        intro a
        simp [natValAux, charDigitVal_digitChar _ hmod]]
      have hlen : (natCharsAux fuel ((m + 1) / 10) ++ [digitChar ((m + 1) % 10)]).length
          = (natCharsAux fuel ((m + 1) / 10)).length + 1 := by simp
      rw [hlen]
      congr 1
      have hdm := Nat.div_add_mod (m + 1) 10
      set K := 10 ^ (natCharsAux fuel ((m + 1) / 10)).length with hK
      calc (acc * K + (m + 1) / 10) * 10 + (m + 1) % 10
          = acc * (K * 10) + (10 * ((m + 1) / 10) + (m + 1) % 10) := by ring
        _ = acc * (K * 10) + (m + 1) := by rw [hdm]
        _ = acc * K ^ 1 * 10 ^ 1 + (m + 1) := by ring
        _ = acc * 10 ^ ((natCharsAux fuel ((m + 1) / 10)).length + 1) + (m + 1) := by
            rw [hK]; ring

theorem natCharsAux_ne_nil (fuel m : Nat) : natCharsAux (fuel + 1) (m + 1) ≠ [] := by
  show natCharsAux fuel ((m + 1) / 10) ++ [digitChar ((m + 1) % 10)] ≠ []
  simp

theorem natChars_ne_nil (n : Nat) : natChars n ≠ [] := by
  by_cases h : n = 0
  · subst h; simp [natChars]
  · match n, h with
    | m + 1, _ =>
      show natCharsAux (m + 1) (m + 1) ≠ []
      exact natCharsAux_ne_nil m m

theorem natValAux0_natChars (n : Nat) : natValAux 0 (natChars n) = some n := by
  by_cases h : n = 0
  · subst h; rfl
  · have hne : natChars n = natCharsAux n n := by simp [natChars, h]
    rw [hne, natValAux_natCharsAux n n (le_refl n) 0]
    simp

theorem parseNat_natChars (n : Nat) : parseNatChars (natChars n) = some n := by
  rw [parseNatChars, if_neg (natChars_ne_nil n)]
  exact natValAux0_natChars n

theorem natValAux_zeros (k : Nat) (l2 : List Char) :
    natValAux 0 (List.replicate k '0' ++ l2) = natValAux 0 l2 := by
  induction k with
  | zero => rfl
  | succ k ih =>
    show natValAux 0 ('0' :: (List.replicate k '0' ++ l2)) = _
    show natValAux (0 * 10 + 0) (List.replicate k '0' ++ l2) = _
    simpa using ih

theorem padChars_ne_nil (k : Nat) (cs : List Char) (h : cs ≠ []) : padChars k cs ≠ [] := by
  simp [padChars, h]

theorem parseNat_padChars (k n : Nat) : parseNatChars (padChars k (natChars n)) = some n := by
  rw [parseNatChars, if_neg (padChars_ne_nil k _ (natChars_ne_nil n))]
  rw [padChars, natValAux_zeros]
  exact natValAux0_natChars n

theorem padChars_length (k : Nat) (cs : List Char) (h : cs.length ≤ k) :
    (padChars k cs).length = k := by
  simp [padChars]
  omega

theorem allDigits_natCharsAux (fuel : Nat) : ∀ n, allDigits (natCharsAux fuel n) = true := by
  induction fuel with
  | zero => intro n; rfl
  | succ fuel ih =>
    intro n
    match n with
    | 0 => rfl
    | m + 1 =>
      show allDigits (natCharsAux fuel ((m + 1) / 10) ++ [digitChar ((m + 1) % 10)]) = true
      simp only [allDigits, List.all_append] at *
      simp [ih, allDigits, isDigitChar_digitChar]

theorem allDigits_natChars (n : Nat) : allDigits (natChars n) = true := by
  by_cases h : n = 0
  · subst h; rfl
  · have hne : natChars n = natCharsAux n n := by simp [natChars, h]
    rw [hne]; exact allDigits_natCharsAux n n

theorem allDigits_padChars (k : Nat) (cs : List Char) (h : allDigits cs = true) :
    allDigits (padChars k cs) = true := by
  simp only [padChars, allDigits, List.all_append, Bool.and_eq_true]
  constructor
  · simp only [List.all_eq_true]
    intro c hc
    have : c = '0' := List.eq_of_mem_replicate hc
    subst this; rfl
  · exact h

theorem natCharsAux_length_le :
    ∀ fuel n k, n ≤ fuel → n < 10 ^ k → (natCharsAux fuel n).length ≤ k := by
  intro fuel
  induction fuel with
  | zero =>
    intro n k h _
    have : n = 0 := Nat.le_zero.mp h
    subst this
    simp [natCharsAux]
  | succ fuel ih =>
    intro n k h hk
    match n with
    | 0 => simp [natCharsAux]
    | m + 1 =>
      match k with
      | 0 => omega
      | k' + 1 =>
        have hdiv : (m + 1) / 10 ≤ fuel := by
          have := Nat.div_lt_self (Nat.succ_pos m) (by omega : 1 < 10)
          omega
        have hlt : (m + 1) / 10 < 10 ^ k' := by
          rw [Nat.div_lt_iff_lt_mul (by omega : 0 < 10)]
          calc m + 1 < 10 ^ (k' + 1) := hk
            _ = 10 ^ k' * 10 := by ring
        have := ih ((m + 1) / 10) k' hdiv hlt
        show (natCharsAux fuel ((m + 1) / 10) ++ [digitChar ((m + 1) % 10)]).length ≤ k' + 1
        simp only [List.length_append, List.length_singleton]
        omega

theorem natChars_length_le4 (n : Nat) (h : n < 10000) : (natChars n).length ≤ 4 := by
  by_cases h0 : n = 0
  · subst h0; simp [natChars]
  · have hne : natChars n = natCharsAux n n := by simp [natChars, h0]
    rw [hne]
    exact natCharsAux_length_le n n 4 (le_refl n) (by norm_num; omega)

theorem isDigitChar_ne_dot {c : Char} (h : isDigitChar c = true) : c ≠ '.' := by
  intro he
  subst he
  exact absurd h (by decide)

theorem isDigitChar_ne_minus {c : Char} (h : isDigitChar c = true) : c ≠ '-' := by
  intro he
  subst he
  exact absurd h (by decide)

theorem not_dot_mem (cs : List Char) (h : allDigits cs = true) : ('.' : Char) ∉ cs := by
  intro hmem
  rw [allDigits, List.all_eq_true] at h
  exact absurd (h _ hmem) (by decide)

theorem splitAtDot_append (l1 l2 : List Char) (h1 : allDigits l1 = true)
    (h2 : allDigits l2 = true) : splitAtDot (l1 ++ '.' :: l2) = some (l1, l2) := by
  induction l1 with
  | nil =>
    show splitAtDot ('.' :: l2) = some ([], l2)
    simp [splitAtDot, not_dot_mem l2 h2]
  | cons c cs ih =>
    simp only [allDigits, List.all_cons, Bool.and_eq_true] at h1
    have hc : c ≠ '.' := isDigitChar_ne_dot h1.1
    show splitAtDot (c :: (cs ++ '.' :: l2)) = some (c :: cs, l2)
    simp only [splitAtDot, if_neg hc]
    rw [ih h1.2]
    rfl

theorem parseDecCore_shape (i f : Nat) (hf : f < 10000) :
    parseDecCore (natChars i ++ '.' :: padChars 4 (natChars f))
      = some ((i : Rat) + (f : Rat) / (10 : Rat) ^ 4) := by
  have hsplit := splitAtDot_append (natChars i) (padChars 4 (natChars f)) (allDigits_natChars i)
      (allDigits_padChars _ _ (allDigits_natChars f))
  have hne : natChars i ≠ [] := natChars_ne_nil i
  have hpne : padChars 4 (natChars f) ≠ [] := padChars_ne_nil _ _ (natChars_ne_nil f)
  have hlen : (padChars 4 (natChars f)).length = 4 :=
    padChars_length 4 _ (natChars_length_le4 f hf)
  rw [parseDecCore, hsplit]
  simp [hne, hpne, parseNat_natChars, parseNat_padChars, hlen]

theorem ratFloor_le (x : Rat) : (x.floor : Rat) ≤ x := Rat.le_floor.mp (le_refl _)

theorem lt_ratFloor_add_one (x : Rat) : x < (x.floor : Rat) + 1 := by
  by_contra hc
  push_neg at hc
  have h2 : ((x.floor + 1 : Int) : Rat) ≤ x := by push_cast; linarith
  have := Rat.le_floor.mpr h2
  omega

theorem rheInt_bound (x : Rat) : |(rheInt x : Rat) - x| ≤ 1 / 2 := by
  have h1 := ratFloor_le x
  have h2 := lt_ratFloor_add_one x
  simp only [rheInt]
  split_ifs with ha hb hc <;> rw [abs_le] <;> constructor <;> push_cast <;> linarith

theorem formatFixed4_roundtrip (q : Rat) :
    parseDecStr (formatFixed4 q) = some ((rheInt (q * 10000) : Rat) / 10000) := by
  have hcore : parseDecCore (natChars ((rheInt (q * 10000)).natAbs / 10000)
        ++ '.' :: padChars 4 (natChars ((rheInt (q * 10000)).natAbs % 10000)))
      = some ((((rheInt (q * 10000)).natAbs / 10000 : Nat) : Rat)
          + (((rheInt (q * 10000)).natAbs % 10000 : Nat) : Rat) / (10 : Rat) ^ 4) :=
    parseDecCore_shape _ _ (Nat.mod_lt _ (by omega))
  set n := rheInt (q * 10000) with hn
  set m := n.natAbs with hm
  have hval : ((m / 10000 : Nat) : Rat) + ((m % 10000 : Nat) : Rat) / (10 : Rat) ^ 4
      = (m : Rat) / 10000 := by
    have hdm : 10000 * (m / 10000) + m % 10000 = m := Nat.div_add_mod m 10000
    have hQ : (10000 : Rat) * ((m / 10000 : Nat) : Rat) + ((m % 10000 : Nat) : Rat)
        = ((m : Nat) : Rat) := by exact_mod_cast hdm
    rw [show ((10 : Rat) ^ 4) = 10000 by norm_num]
    field_simp
    linarith
  simp only [formatFixed4]
  by_cases hneg : n < 0
  · rw [if_pos hneg]
    have hL : (String.mk ('-' :: (natChars (m / 10000) ++ '.' :: padChars 4 (natChars (m % 10000))))).toList
        = '-' :: (natChars (m / 10000) ++ '.' :: padChars 4 (natChars (m % 10000))) := rfl
    rw [parseDecStr, hL]
    show Option.map (fun q => -q)
        (parseDecCore (natChars (m / 10000) ++ '.' :: padChars 4 (natChars (m % 10000))))
      = some ((n : Rat) / 10000)
    rw [hcore, hval]
    have hcast : ((m : Nat) : Rat) = -(n : Rat) := by
      have : ((m : Nat) : Int) = -n := Int.ofNat_natAbs_of_nonpos (le_of_lt hneg)
      exact_mod_cast this
    show some (-(((m : Nat) : Rat) / 10000)) = some ((n : Rat) / 10000)
    rw [hcast]
    congr 1
    ring
  · rw [if_neg hneg]
    obtain ⟨c, cs', hcons⟩ := List.exists_cons_of_ne_nil (natChars_ne_nil (m / 10000))
    have hdig : isDigitChar c = true := by
      have := allDigits_natChars (m / 10000)
      rw [hcons] at this
      simp only [allDigits, List.all_cons, Bool.and_eq_true] at this
      exact this.1
    have hcm : c ≠ '-' := isDigitChar_ne_minus hdig
    have hL : (String.mk (natChars (m / 10000) ++ '.' :: padChars 4 (natChars (m % 10000)))).toList
        = c :: (cs' ++ '.' :: padChars 4 (natChars (m % 10000))) := by
      show natChars (m / 10000) ++ '.' :: padChars 4 (natChars (m % 10000)) = _
      rw [hcons]
      rfl
    rw [parseDecStr, hL]
    show (if c = '-' then
        Option.map (fun q => -q) (parseDecCore (cs' ++ '.' :: padChars 4 (natChars (m % 10000))))
      else parseDecCore (c :: (cs' ++ '.' :: padChars 4 (natChars (m % 10000)))))
      = some ((n : Rat) / 10000)
    rw [if_neg hcm]
    rw [show c :: (cs' ++ '.' :: padChars 4 (natChars (m % 10000)))
        = natChars (m / 10000) ++ '.' :: padChars 4 (natChars (m % 10000)) by rw [hcons]; rfl]
    rw [hcore, hval]
    have hcast : ((m : Nat) : Rat) = (n : Rat) := by
      have : ((m : Nat) : Int) = n := Int.natAbs_of_nonneg (not_lt.mp hneg)
      exact_mod_cast this
    rw [hcast]

theorem length_four_cases {l : List Char} (h : l.length = 4) :
    ∃ a b c d, l = [a, b, c, d] := by
  match l, h with
  | a :: t, h =>
    have ht : t.length = 3 := by simpa using h
    obtain ⟨b, c, d, rfl⟩ := List.length_eq_three.mp ht
    exact ⟨a, b, c, d, rfl⟩

theorem allDigits_reverse (cs : List Char) (h : allDigits cs = true) :
    allDigits cs.reverse = true := by
  rw [allDigits, List.all_eq_true] at *
  intro c hc
  exact h c (List.mem_reverse.mp hc)

theorem dropSign_digits_append (cs tail : List Char) (h : allDigits cs = true) (hne : cs ≠ []) :
    dropSign (cs ++ tail) = cs ++ tail := by
  obtain ⟨c, cs', rfl⟩ := List.exists_cons_of_ne_nil hne
  simp only [allDigits, List.all_cons, Bool.and_eq_true] at h
  simp [dropSign, isDigitChar_ne_minus h.1]

theorem isFixedPoint4_of_core (L : List Char) (A B : Nat) (hB : B < 10000)
    (hdrop : dropSign L = natChars A ++ '.' :: padChars 4 (natChars B)) :
    isFixedPoint4 (String.mk L) = true := by
  obtain ⟨f1, f2, f3, f4, hP⟩ := length_four_cases
    (padChars_length 4 (natChars B) (natChars_length_le4 B hB))
  have hdigP : allDigits (padChars 4 (natChars B)) = true :=
    allDigits_padChars _ _ (allDigits_natChars B)
  rw [hP] at hdigP hdrop
  simp only [allDigits, List.all_cons, List.all_nil, Bool.and_eq_true, Bool.and_true] at hdigP
  have hAne : (natChars A).reverse ≠ [] := by simp [natChars_ne_nil A]
  have hrev : (dropSign (String.mk L).toList).reverse
      = f4 :: f3 :: f2 :: f1 :: '.' :: (natChars A).reverse := by
    show (dropSign L).reverse = _
    rw [hdrop]
    simp
  unfold isFixedPoint4
  rw [hrev]
  have hAD := allDigits_reverse _ (allDigits_natChars A)
  simp [allDigits, hdigP.1, hdigP.2.1, hdigP.2.2.1, hdigP.2.2.2, hAD, hAne]
  intro x hx
  have hall := allDigits_natChars A
  rw [allDigits, List.all_eq_true] at hall
  exact hall x hx

theorem isFixedPoint4_formatFixed4 (q : Rat) : isFixedPoint4 (formatFixed4 q) = true := by
  have hB : (rheInt (q * 10000)).natAbs % 10000 < 10000 := Nat.mod_lt _ (by omega)
  simp only [formatFixed4]
  by_cases hneg : rheInt (q * 10000) < 0
  · rw [if_pos hneg]
    apply isFixedPoint4_of_core _ ((rheInt (q * 10000)).natAbs / 10000)
      ((rheInt (q * 10000)).natAbs % 10000) hB
    show dropSign ('-' :: (natChars _ ++ '.' :: padChars 4 (natChars _))) = _
    simp [dropSign]
  · rw [if_neg hneg]
    apply isFixedPoint4_of_core _ ((rheInt (q * 10000)).natAbs / 10000)
      ((rheInt (q * 10000)).natAbs % 10000) hB
    exact dropSign_digits_append _ _ (allDigits_natChars _) (natChars_ne_nil _)

/-! ## Lemmas on the sort order of _prepare_rows -/

theorem charListLt_irrefl : ∀ cs, charListLt cs cs = false := by
  intro cs
  induction cs with
  | nil => rfl
  | cons c cs ih => simp [charListLt, lt_irrefl, ih]

theorem charListLt_trans :
    ∀ a b c, charListLt a b = true → charListLt b c = true → charListLt a c = true := by
  intro a
  induction a with
  | nil =>
    intro b c hab hbc
    cases b with
    | nil => simp [charListLt] at hab
    | cons bb bs =>
      cases c with
      | nil => simp [charListLt] at hbc
      | cons cc cs => rfl
  | cons aa as ih =>
    intro b c hab hbc
    cases b with
    | nil => simp [charListLt] at hab
    | cons bb bs =>
      cases c with
      | nil => simp [charListLt] at hbc
      | cons cc cs =>
        by_cases h1 : aa < bb
        · by_cases h2 : bb < cc
          · simp [charListLt, lt_trans h1 h2]
          · by_cases h3 : cc < bb
            · simp [charListLt, h2, h3] at hbc
            · have hbc' : bb = cc := le_antisymm (not_lt.mp h3) (not_lt.mp h2)
              subst hbc'
              simp [charListLt, h1]
        · by_cases h4 : bb < aa
          · simp [charListLt, h1, h4] at hab
          · have heq : aa = bb := le_antisymm (not_lt.mp h4) (not_lt.mp h1)
            subst heq
            simp only [charListLt, if_neg h1, if_neg h4] at hab
            by_cases h2 : aa < cc
            · simp [charListLt, h2]
            · by_cases h3 : cc < aa
              · simp [charListLt, h2, h3] at hbc
              · have heq2 : aa = cc := le_antisymm (not_lt.mp h3) (not_lt.mp h2)
                subst heq2
                simp only [charListLt, if_neg h2, if_neg h3] at hbc ⊢
                exact ih bs cs hab hbc

theorem charListLt_asymm {a b : List Char} (h1 : charListLt a b = true)
    (h2 : charListLt b a = true) : False := by
  have := charListLt_trans a b a h1 h2
  rw [charListLt_irrefl] at this
  cases this

theorem charListLt_connex : ∀ a b, a ≠ b → charListLt a b = true ∨ charListLt b a = true := by
  intro a
  induction a with
  | nil =>
    intro b hne
    cases b with
    | nil => exact absurd rfl hne
    | cons bb bs => left; rfl
  | cons aa as ih =>
    intro b hne
    cases b with
    | nil => right; rfl
    | cons bb bs =>
      rcases lt_trichotomy aa bb with h | h | h
      · left; simp [charListLt, h]
      · subst h
        have hne' : as ≠ bs := by
          intro he
          exact hne (by rw [he])
        rcases ih bs hne' with h' | h'
        · left; simp [charListLt, lt_irrefl, h']
        · right; simp [charListLt, lt_irrefl, h']
      · right; simp [charListLt, h]

theorem string_toList_inj {s1 s2 : String} (h : s1.toList = s2.toList) : s1 = s2 := by
  cases s1
  cases s2
  exact congrArg String.mk h

theorem strLtB_of_ne {s1 s2 : String} (h : s1 ≠ s2) :
    strLtB s1 s2 = true ∨ strLtB s2 s1 = true := by
  apply charListLt_connex
  intro he
  exact h (string_toList_inj he)

theorem dtLeB_iff (a b : DateTime) : dtLeB a b = true ↔
    (a.year < b.year ∨ (a.year = b.year ∧ (a.month < b.month ∨ (a.month = b.month
      ∧ (a.day < b.day ∨ (a.day = b.day ∧ (a.hour < b.hour ∨ (a.hour = b.hour
      ∧ (a.minute < b.minute ∨ (a.minute = b.minute ∧ a.second ≤ b.second)))))))))) := by
  simp only [dtLeB]
  split_ifs <;> simp only [decide_eq_true_eq] <;> omega

theorem dtLeB_total (a b : DateTime) : dtLeB a b = true ∨ dtLeB b a = true := by
  rw [dtLeB_iff, dtLeB_iff]
  omega

theorem dtLeB_trans {a b c : DateTime} (h1 : dtLeB a b = true) (h2 : dtLeB b c = true) :
    dtLeB a c = true := by
  rw [dtLeB_iff] at h1 h2 ⊢
  omega

theorem dtLeB_antisymm {a b : DateTime} (h1 : dtLeB a b = true) (h2 : dtLeB b a = true) :
    a = b := by
  rw [dtLeB_iff] at h1 h2
  cases a
  cases b
  simp only [DateTime.mk.injEq]
  simp only at h1 h2
  omega

instance : IsTotal StockPrice recLE := by
  constructor
  intro p q
  simp only [recLE, recLEb]
  by_cases h : p.symbol = q.symbol
  · rw [if_pos h, if_pos h.symm]
    exact dtLeB_total _ _
  · rw [if_neg h, if_neg (Ne.symm h)]
    exact strLtB_of_ne h

instance : IsTrans StockPrice recLE := by
  constructor
  intro p q r h1 h2
  simp only [recLE, recLEb] at h1 h2 ⊢
  by_cases hpq : p.symbol = q.symbol
  · by_cases hqr : q.symbol = r.symbol
    · rw [if_pos hpq] at h1
      rw [if_pos hqr] at h2
      rw [if_pos (hpq.trans hqr)]
      exact dtLeB_trans h1 h2
    · rw [if_neg hqr] at h2
      have hpr : p.symbol ≠ r.symbol := by rw [hpq]; exact hqr
      rw [if_neg hpr]
      rw [strLtB, hpq]
      exact h2
  · by_cases hqr : q.symbol = r.symbol
    · rw [if_neg hpq] at h1
      have hpr : p.symbol ≠ r.symbol := by rw [← hqr]; exact hpq
      rw [if_neg hpr]
      rw [strLtB, ← hqr]
      exact h1
    · rw [if_neg hpq] at h1
      rw [if_neg hqr] at h2
      by_cases hpr : p.symbol = r.symbol
      · exfalso
        rw [strLtB] at h1 h2
        rw [hpr] at h1
        exact charListLt_asymm h2 h1
      · rw [if_neg hpr]
        exact charListLt_trans _ _ _ h1 h2

theorem recKeyNe_symm {p q : StockPrice} (h : recKeyNe p q) : recKeyNe q p := by
  rcases h with h | h
  · exact Or.inl (Ne.symm h)
  · exact Or.inr (Ne.symm h)

instance : IsAntisymm StockPrice (fun p q => recLE p q ∧ recKeyNe p q) := by
  constructor
  intro p q h1 h2
  exfalso
  obtain ⟨hle1, hne1⟩ := h1
  obtain ⟨hle2, _⟩ := h2
  simp only [recLE, recLEb] at hle1 hle2
  by_cases hsym : p.symbol = q.symbol
  · rw [if_pos hsym] at hle1
    rw [if_pos hsym.symm] at hle2
    have := dtLeB_antisymm hle1 hle2
    rcases hne1 with h | h
    · exact h hsym
    · exact h this
  · rw [if_neg hsym] at hle1
    rw [if_neg (Ne.symm hsym)] at hle2
    exact charListLt_asymm hle1 hle2

/-! ## Lemmas on the fallible pipeline -/

theorem mapME_isError {α β : Type} (f : α → Except String β) :
    ∀ l : List α, (∃ a ∈ l, isErr (f a) = true) → isErr (mapME f l) = true := by
  intro l
  induction l with
  | nil => intro h; simp at h
  | cons a as ih =>
    intro h
    rcases h with ⟨x, hx, hfx⟩
    rcases List.mem_cons.mp hx with rfl | hmem
    · cases hfa : f x with
      | error e => simp [mapME, hfa, isErr]
      | ok b => rw [hfa] at hfx; simp [isErr] at hfx
    · cases hfa : f a with
      | error e => simp [mapME, hfa, isErr]
      | ok b =>
        have hrec := ih ⟨x, hmem, hfx⟩
        simp only [mapME, hfa]
        cases hm : mapME f as with
        | error e => rfl
        | ok bs => rw [hm] at hrec; simp [isErr] at hrec

theorem mapME_ok_length {α β : Type} (f : α → Except String β) :
    ∀ (l : List α) (bs : List β), mapME f l = .ok bs → bs.length = l.length := by
  intro l
  induction l with
  | nil =>
    intro bs h
    injection h with h2
    rw [← h2]
    rfl
  | cons a as ih =>
    intro bs h
    cases hfa : f a with
    | error e => rw [mapME, hfa] at h; exact Except.noConfusion h
    | ok b =>
      rw [mapME, hfa] at h
      cases hm : mapME f as with
      | error e => rw [hm] at h; exact Except.noConfusion h
      | ok bs' =>
        rw [hm] at h
        injection h with h2
        rw [← h2]
        simp [ih bs' hm]

theorem mapME_ok_mem {α β : Type} (f : α → Except String β) :
    ∀ (l : List α) (bs : List β), mapME f l = .ok bs →
      ∀ b ∈ bs, ∃ a ∈ l, f a = .ok b := by
  intro l
  induction l with
  | nil =>
    intro bs h b hb
    injection h with h2
    rw [← h2] at hb
    simp at hb
  | cons a as ih =>
    intro bs h b hb
    cases hfa : f a with
    | error e => rw [mapME, hfa] at h; exact Except.noConfusion h
    | ok b0 =>
      rw [mapME, hfa] at h
      cases hm : mapME f as with
      | error e => rw [hm] at h; exact Except.noConfusion h
      | ok bs' =>
        rw [hm] at h
        injection h with h2
        rw [← h2] at hb
        rcases List.mem_cons.mp hb with rfl | hmem
        · exact ⟨a, List.mem_cons_self a as, hfa⟩
        · obtain ⟨x, hx1, hx2⟩ := ih bs' hm b hmem
          exact ⟨x, List.mem_cons_of_mem a hx1, hx2⟩

theorem mapME_ok_map {α β : Type} (f : α → Except String β) (g : β → α) :
    ∀ (l : List α) (bs : List β), mapME f l = .ok bs →
      (∀ a b, f a = .ok b → g b = a) → bs.map g = l := by
  intro l
  induction l with
  | nil =>
    intro bs h _
    injection h with h2
    rw [← h2]
    rfl
  | cons a as ih =>
    intro bs h hg
    cases hfa : f a with
    | error e => rw [mapME, hfa] at h; exact Except.noConfusion h
    | ok b =>
      rw [mapME, hfa] at h
      cases hm : mapME f as with
      | error e => rw [hm] at h; exact Except.noConfusion h
      | ok bs' =>
        rw [hm] at h
        injection h with h2
        rw [← h2]
        simp only [List.map_cons]
        rw [hg a b hfa, ih bs' hm hg]

theorem isErr_toOption {α : Type} (x : Except String α) (h : isErr x = true) :
    x.toOption = none := by
  cases x with
  | error e => rfl
  | ok a => simp [isErr] at h

theorem from_alphavantage_symbol {s ts : String} {f2 : List (String × Json)} {p : StockPrice}
    (h : StockPrice.from_alphavantage s ts f2 = .ok p) : p.symbol = s := by
  unfold StockPrice.from_alphavantage at h
  rcases h1 : parseIsoDateTime ts with _ | d <;> rw [h1] at h
  · exact Except.noConfusion h
  · rcases h2 : getFloat f2 "1. open" with e | o <;> rw [h2] at h
    · exact Except.noConfusion h
    · rcases h3 : getFloat f2 "2. high" with e | hh <;> rw [h3] at h
      · exact Except.noConfusion h
      · rcases h4 : getFloat f2 "3. low" with e | ll <;> rw [h4] at h
        · exact Except.noConfusion h
        · rcases h5 : getFloat f2 "4. close" with e | cc <;> rw [h5] at h
          · exact Except.noConfusion h
          · rcases h6 : volumeOf f2 with e | vv <;> rw [h6] at h
            · exact Except.noConfusion h
            · injection h with h7
              rw [← h7]

theorem extractSeries_symbol {s : String} {pay : Json} {ps : List StockPrice}
    (h : extractSeries s pay = .ok ps) : ∀ p ∈ ps, p.symbol = s := by
  intro p hp
  cases pay with
  | obj fields =>
    rw [extractSeries] at h
    rcases hf : findSeriesEntry fields with _ | kv <;> rw [hf] at h
    · exact Except.noConfusion h
    · obtain ⟨k, v⟩ := kv
      cases v with
      | obj series =>
        obtain ⟨e, _, hfe⟩ := mapME_ok_mem _ series ps h p hp
        cases he2 : e.2 with
        | obj f2 =>
          rw [he2] at hfe
          exact from_alphavantage_symbol hfe
        | str s2 => rw [he2] at hfe; exact Except.noConfusion hfe
        | num q => rw [he2] at hfe; exact Except.noConfusion hfe
        | bool b => rw [he2] at hfe; exact Except.noConfusion hfe
        | null => rw [he2] at hfe; exact Except.noConfusion hfe
        | arr xs => rw [he2] at hfe; exact Except.noConfusion hfe
      | str s2 => exact Except.noConfusion h
      | num q => exact Except.noConfusion h
      | bool b => exact Except.noConfusion h
      | null => exact Except.noConfusion h
      | arr xs => exact Except.noConfusion h
  | str s2 => exact Except.noConfusion h
  | num q => exact Except.noConfusion h
  | bool b => exact Except.noConfusion h
  | null => exact Except.noConfusion h
  | arr xs => exact Except.noConfusion h

theorem collectSeries_err (t : String → Json) :
    ∀ symbols s, s ∈ symbols → isErr (extractSeries s (t s)) = true →
      isErr (collectSeries t symbols).fst = true := by
  intro symbols
  induction symbols with
  | nil => intro s hs; simp at hs
  | cons a as ih =>
    intro s hs he
    rcases List.mem_cons.mp hs with rfl | hmem
    · cases hx : extractSeries s (t s) with
      | error e => simp [collectSeries, hx, isErr]
      | ok ps => rw [hx] at he; simp [isErr] at he
    · cases hx : extractSeries a (t a) with
      | error e => simp [collectSeries, hx, isErr]
      | ok ps =>
        have hrec := ih s hmem he
        simp only [collectSeries, hx]
        cases hm : (collectSeries t as).fst with
        | error e => rfl
        | ok qs => rw [hm] at hrec; simp [isErr] at hrec

theorem collectSeries_ok_symbols (t : String → Json) :
    ∀ symbols ps, (collectSeries t symbols).fst = .ok ps →
      ∀ p ∈ ps, p.symbol ∈ symbols := by
  intro symbols
  induction symbols with
  | nil =>
    intro ps h p hp
    injection h with h2
    rw [← h2] at hp
    simp at hp
  | cons a as ih =>
    intro ps h p hp
    cases hx : extractSeries a (t a) with
    | error e =>
      rw [show (collectSeries t (a :: as)).fst = .error e by simp [collectSeries, hx]] at h
      exact Except.noConfusion h
    | ok xs =>
      have hfst : (collectSeries t (a :: as)).fst
          = ((collectSeries t as).fst).map (fun qs => xs ++ qs) := by
        simp [collectSeries, hx]
      rw [hfst] at h
      cases hm : (collectSeries t as).fst with
      | error e => rw [hm] at h; exact Except.noConfusion h
      | ok qs =>
        rw [hm] at h
        injection h with h2
        rw [← h2] at hp
        rcases List.mem_append.mp hp with hmem | hmem
        · exact List.mem_cons.mpr (Or.inl (extractSeries_symbol hx p hmem))
        · exact List.mem_cons.mpr (Or.inr (ih qs hm p hmem))

theorem extractSeries_err_of_bad (s : String) (pay : Json)
    (h : seriesKeyMissing pay = true ∨ hasBadEntry pay = true) :
    isErr (extractSeries s pay) = true := by
  cases pay with
  | obj fields =>
    rcases hf : findSeriesEntry fields with _ | kv
    · simp [extractSeries, hf, isErr]
    · obtain ⟨k, v⟩ := kv
      have hkm : seriesKeyMissing (Json.obj fields) = false := by
        simp [seriesKeyMissing, hf]
      rcases h with h | h
      · rw [hkm] at h; exact Bool.noConfusion h
      · rw [hasBadEntry, hf] at h
        cases v with
        | obj series =>
          rw [extractSeries, hf]
          apply mapME_isError
          rw [List.any_eq_true] at h
          obtain ⟨e, he, hbad⟩ := h
          refine ⟨e, he, ?hbadentry⟩
          obtain ⟨ek, ev⟩ := e
          cases ev with
          | obj f2 => exact Bool.noConfusion hbad
          | str s2 => rfl
          | num q => rfl
          | bool b => rfl
          | null => rfl
          | arr xs => rfl
        | str s2 => simp [extractSeries, hf, isErr]
        | num q => simp [extractSeries, hf, isErr]
        | bool b => simp [extractSeries, hf, isErr]
        | null => simp [extractSeries, hf, isErr]
        | arr xs => simp [extractSeries, hf, isErr]
  | str s2 => rfl
  | num q => rfl
  | bool b => rfl
  | null => rfl
  | arr xs => rfl

theorem isErr_map {α β : Type} (f : α → β) (x : Except String α)
    (h : isErr x = true) : isErr (x.map f) = true := by
  cases x with
  | error e => rfl
  | ok a => simp [isErr] at h

theorem except_map_ok {α β : Type} {f : α → β} {x : Except String α} {b : β}
    (h : x.map f = .ok b) : ∃ a, x = .ok a ∧ f a = b := by
  cases x with
  | error e => exact Except.noConfusion h
  | ok a =>
    injection h with h2
    exact ⟨a, rfl, h2⟩

theorem makeQuoteRow_symbol {lk : List (String × Json)} {s : String} {r : QuoteRow}
    (h : makeQuoteRow lk s = .ok r) : r.symbol = s := by
  rw [makeQuoteRow] at h
  rcases hd : dictGet lk s with _ | q <;> rw [hd] at h
  · injection h with h2
    rw [← h2]
  · replace h : (quoteTimestamp (jGet q "regularMarketTime")).map (fun ts =>
        ({ symbol := s, price := (jGet q "regularMarketPrice").getD (Json.str ""),
           currency := (jGet q "currency").getD (Json.str ""), timestamp := ts } : QuoteRow))
        = Except.ok r := h
    obtain ⟨ts, _, hfr⟩ := except_map_ok h
    rw [← hfr]

theorem makeQuoteRow_none (lk : List (String × Json)) (s : String)
    (h : dictGet lk s = none) :
    makeQuoteRow lk s = .ok ⟨s, .str "", .str "", ""⟩ := by
  rw [makeQuoteRow, h]

theorem fetch_invalid (payload : Json) (symbols : List String)
    (h : normalizedSymbols symbols = []) :
    isErr (fetch_stock_prices payload symbols).fst = true
      ∧ (fetch_stock_prices payload symbols).snd = 0 := by
  simp only [fetch_stock_prices]
  by_cases h1 : symbols = []
  · rw [if_pos h1]
    exact ⟨rfl, rfl⟩
  · rw [if_neg h1, if_pos h]
    exact ⟨rfl, rfl⟩

theorem fetch_ok_rows {payload : Json} {symbols : List String} {rows : List QuoteRow}
    (h : (fetch_stock_prices payload symbols).fst = .ok rows) :
    ∃ lk, lookupOf payload = .ok lk
      ∧ mapME (makeQuoteRow lk) (normalizedSymbols symbols) = .ok rows := by
  simp only [fetch_stock_prices] at h
  by_cases h1 : symbols = []
  · rw [if_pos h1] at h
    exact Except.noConfusion h
  · rw [if_neg h1] at h
    by_cases h2 : normalizedSymbols symbols = []
    · rw [if_pos h2] at h
      exact Except.noConfusion h
    · rw [if_neg h2] at h
      rcases hlk : lookupOf payload with e | lk <;> rw [hlk] at h
      · exact Except.noConfusion h
      · exact ⟨lk, rfl, h⟩

theorem quoteCsvFile_ok {payload : Json} {symbols : List String} {rows : List QuoteRow}
    (h : (fetch_stock_prices payload symbols).fst = .ok rows) :
    quoteCsvFile payload symbols = some (quoteHeaderRow :: rows.map renderQuoteRow) := by
  rw [quoteCsvFile, h]
  rfl

theorem fetch_rows_symbols {payload : Json} {symbols : List String} {rows : List QuoteRow}
    (h : (fetch_stock_prices payload symbols).fst = .ok rows) :
    rows.map QuoteRow.symbol = normalizedSymbols symbols := by
  obtain ⟨lk, _, hmap⟩ := fetch_ok_rows h
  exact mapME_ok_map _ _ _ rows hmap (fun a b hb => makeQuoteRow_symbol hb)

theorem from_alphavantage_volume {s ts : String} {f2 : List (String × Json)} {p : StockPrice}
    (h : StockPrice.from_alphavantage s ts f2 = .ok p) : volumeOf f2 = .ok p.volume := by
  unfold StockPrice.from_alphavantage at h
  rcases h1 : parseIsoDateTime ts with _ | d <;> rw [h1] at h
  · exact Except.noConfusion h
  · rcases h2 : getFloat f2 "1. open" with e | o <;> rw [h2] at h
    · exact Except.noConfusion h
    · rcases h3 : getFloat f2 "2. high" with e | hh <;> rw [h3] at h
      · exact Except.noConfusion h
      · rcases h4 : getFloat f2 "3. low" with e | ll <;> rw [h4] at h
        · exact Except.noConfusion h
        · rcases h5 : getFloat f2 "4. close" with e | cc <;> rw [h5] at h
          · exact Except.noConfusion h
          · rcases h6 : volumeOf f2 with e | vv <;> rw [h6] at h
            · exact Except.noConfusion h
            · injection h with h7
              rw [← h7]

theorem intChars_digits (i : Int) :
    (intChars i).all (fun c => isDigitChar c || c = '-') = true := by
  have hb : ∀ cs, allDigits cs = true → cs.all (fun c => isDigitChar c || c = '-') = true := by
    intro cs h
    rw [allDigits, List.all_eq_true] at h
    rw [List.all_eq_true]
    intro c hc
    simp [h c hc]
  rw [intChars]
  split_ifs with h
  · rw [List.all_cons]
    simp only [hb _ (allDigits_natChars _), Bool.and_true]
    rfl
  · exact hb _ (allDigits_natChars _)

theorem sortRecords_sorted (data : List StockPrice) :
    List.Sorted recLE (sortRecords data) :=
  List.sorted_insertionSort recLE data

theorem sortRecords_length (data : List StockPrice) :
    (sortRecords data).length = data.length :=
  (List.perm_insertionSort recLE data).length_eq

theorem prepare_rows_perm_invariant (l1 l2 : List StockPrice) (hperm : l1.Perm l2)
    (hdist : l1.Pairwise recKeyNe) : _prepare_rows l1 = _prepare_rows l2 := by
  have hs1 : List.Sorted recLE (sortRecords l1) := sortRecords_sorted l1
  have hs2 : List.Sorted recLE (sortRecords l2) := sortRecords_sorted l2
  have hp1 : (sortRecords l1).Perm l1 := List.perm_insertionSort recLE l1
  have hp2 : (sortRecords l2).Perm l2 := List.perm_insertionSort recLE l2
  have hd1 : (sortRecords l1).Pairwise recKeyNe :=
    hdist.perm hp1.symm (fun h => recKeyNe_symm h)
  have hd2 : (sortRecords l2).Pairwise recKeyNe :=
    ((hdist.perm hperm (fun h => recKeyNe_symm h)).perm hp2.symm (fun h => recKeyNe_symm h))
  have hs1' : List.Pairwise (fun p q => recLE p q ∧ recKeyNe p q) (sortRecords l1) :=
    List.Pairwise.and hs1 hd1
  have hs2' : List.Pairwise (fun p q => recLE p q ∧ recKeyNe p q) (sortRecords l2) :=
    List.Pairwise.and hs2 hd2
  have hperm' : (sortRecords l1).Perm (sortRecords l2) :=
    hp1.trans (hperm.trans hp2.symm)
  have heq : sortRecords l1 = sortRecords l2 :=
    List.eq_of_perm_of_sorted hperm' hs1' hs2'
  rw [_prepare_rows, _prepare_rows, heq]

/-! ## The claims -/

section ClaimProofs
unseal Rat.add Rat.mul Rat.sub Rat.inv

/-- C1 counterexample: in time-series mode an empty symbol list does not
raise any input error — the run succeeds with zero transport calls and
writes a header-only CSV — and a whitespace-only list reaches the
transport (one call is made), contradicting the claim that both fetch
operations report an input error before any transport call. -/
theorem c1_counterexample :
    fetch_and_save_stock_prices c1Stub [] = (.ok [tsHeaderRow], 0)
      ∧ (fetch_and_save_stock_prices c1Stub [" "]).snd = 1 :=
  ⟨rfl, rfl⟩

/-- C1 (amended): in quote mode a symbol list that is empty or all blank
after trimming raises an input error with zero transport calls; in
time-series mode there is no such validation — an empty list succeeds with
zero transport calls and yields a header-only CSV. -/
theorem c1_input_validation (payload : Json) (symbols : List String) (t : String → Json)
    (h : normalizedSymbols symbols = []) :
    isErr (fetch_stock_prices payload symbols).fst = true
      ∧ (fetch_stock_prices payload symbols).snd = 0
      ∧ fetch_and_save_stock_prices t [] = (.ok [tsHeaderRow], 0) := by
  obtain ⟨h1, h2⟩ := fetch_invalid payload symbols h
  exact ⟨h1, h2, rfl⟩

theorem c1_witness :
    isErr (fetch_stock_prices (Json.obj []) ["", "  "]).fst = true
      ∧ (fetch_stock_prices (Json.obj []) ["", "  "]).snd = 0
      ∧ fetch_and_save_stock_prices c1Stub [] = (.ok [tsHeaderRow], 0) :=
  c1_input_validation (Json.obj []) ["", "  "] c1Stub (by rfl)

/-- C2 counterexample: a quote-mode fetch for msft then aapl returns the
MSFT row before the AAPL row (normalized input order), although AAPL sorts
before MSFT, and returns two rows while the response carries three entries
— so quote-mode output is neither sorted by symbol nor one row per
response entry. -/
theorem c2_counterexample :
    (fetch_stock_prices c2Payload ["msft", "aapl"]).fst
        = .ok [⟨"MSFT", .str "", .str "", ""⟩, ⟨"AAPL", .str "", .str "", ""⟩]
      ∧ strLtB "AAPL" "MSFT" = true
      ∧ (quotesOf c2Payload).map List.length = .ok 3 :=
  ⟨rfl, rfl, rfl⟩

/-- C2 (amended): in time-series mode the data rows are exactly the
collected records sorted by (symbol, timestamp) ascending, one row per
record; in quote mode the rows appear in normalized input-symbol order,
one row per normalized symbol. -/
theorem c2_row_order (data : List StockPrice) (payload : Json) (symbols : List String)
    (rows : List QuoteRow)
    (h : (fetch_stock_prices payload symbols).fst = .ok rows) :
    _prepare_rows data = tsHeaderRow :: (sortRecords data).map stockPriceRow
      ∧ List.Sorted recLE (sortRecords data)
      ∧ (sortRecords data).length = data.length
      ∧ rows.map QuoteRow.symbol = normalizedSymbols symbols :=
  ⟨rfl, sortRecords_sorted data, sortRecords_length data, fetch_rows_symbols h⟩

theorem c2_witness :
    _prepare_rows [] = tsHeaderRow :: (sortRecords []).map stockPriceRow
      ∧ List.Sorted recLE (sortRecords [])
      ∧ (sortRecords []).length = ([] : List StockPrice).length
      ∧ ([⟨"AAPL", .str "", .str "USD", ""⟩] : List QuoteRow).map QuoteRow.symbol
          = normalizedSymbols ["aapl"] :=
  c2_row_order [] c2wPayload ["aapl"] [⟨"AAPL", .str "", .str "USD", ""⟩] (by rfl)

/-- C3 counterexample: a time-series fetch for the lowercase input msft
emits a data row whose symbol cell is the verbatim string msft rather than
the trimmed uppercase form MSFT the claim requires in every mode. -/
theorem c3_counterexample :
    (fetch_and_save_stock_prices c3Stub ["msft"]).fst
        = .ok [tsHeaderRow,
            ["msft", "2024-01-02T00:00:00", "1.0000", "2.0000", "0.5000", "1.5000", "100"]]
      ∧ pyUpper (pyStrip "msft") = "MSFT"
      ∧ ("msft" : String) ≠ "MSFT" :=
  ⟨by rfl, by rfl, by decide⟩

/-- C3 (amended): in quote mode every output row's symbol is the trimmed,
uppercased form of an input symbol; in time-series mode the symbols are
used verbatim — each data row's symbol cell is exactly one of the raw
input strings. -/
theorem c3_symbol_normalization (payload : Json) (symbols : List String)
    (rows : List QuoteRow) (t : String → Json) (symbols2 : List String)
    (file : List (List String))
    (h : (fetch_stock_prices payload symbols).fst = .ok rows)
    (h2 : (fetch_and_save_stock_prices t symbols2).fst = .ok file) :
    (∀ r ∈ rows, r.symbol ∈ normalizedSymbols symbols)
      ∧ ∀ row ∈ file.tail, ∃ s ∈ symbols2, row.head? = some s := by
  constructor
  · intro r hr
    rw [← fetch_rows_symbols h]
    exact List.mem_map_of_mem QuoteRow.symbol hr
  · intro row hrow
    have hf : (collectSeries t symbols2).fst.map _prepare_rows = .ok file := h2
    obtain ⟨ps, hcol, hpr⟩ := except_map_ok hf
    rw [← hpr, _prepare_rows] at hrow
    simp only [List.tail_cons] at hrow
    obtain ⟨p, hp, hrow2⟩ := List.mem_map.mp hrow
    have hmem : p ∈ ps := (List.perm_insertionSort recLE ps).mem_iff.mp hp
    refine ⟨p.symbol, collectSeries_ok_symbols t symbols2 ps hcol p hmem, ?_⟩
    rw [← hrow2]
    rfl

theorem c3_witness :
    ("AAPL" : String) ∈ normalizedSymbols ["aapl"] :=
  (c3_symbol_normalization c3wPayload ["aapl"] [⟨"AAPL", .str "", .str "", ""⟩] c3Stub ["msft"]
      [tsHeaderRow, ["msft", "2024-01-02T00:00:00", "1.0000", "2.0000", "0.5000", "1.5000", "100"]]
      (by rfl) (by rfl)).1
    ⟨"AAPL", .str "", .str "", ""⟩ (List.Mem.head _)

/-- C4: a time-series fetch in which some requested symbol's payload lacks
a recognized top-level series key, or contains a non-mapping series entry,
raises an error, and no output file is created at the destination path. -/
theorem c4_no_partial_file (t : String → Json) (symbols : List String) (s : String)
    (hs : s ∈ symbols)
    (hbad : seriesKeyMissing (t s) = true ∨ hasBadEntry (t s) = true) :
    isErr (fetch_and_save_stock_prices t symbols).fst = true
      ∧ writtenTsFile t symbols = none := by
  have h1 := collectSeries_err t symbols s hs (extractSeries_err_of_bad s (t s) hbad)
  have h2 : isErr (fetch_and_save_stock_prices t symbols).fst = true := by
    show isErr ((collectSeries t symbols).fst.map _prepare_rows) = true
    exact isErr_map _ _ h1
  exact ⟨h2, isErr_toOption _ h2⟩

theorem c4_witness :
    isErr (fetch_and_save_stock_prices c4Stub ["MSFT"]).fst = true
      ∧ writtenTsFile c4Stub ["MSFT"] = none :=
  c4_no_partial_file c4Stub ["MSFT"] "MSFT" (List.Mem.head _) (Or.inl (by rfl))

/-- C5: a successful quote-mode fetch returns exactly one row per
normalized input symbol, in order — so the data-row count equals the
normalized symbol count — and a normalized symbol with no entry in the
provider lookup yields a row whose price, currency and timestamp cells are
all empty strings. -/
theorem c5_one_row_per_symbol (payload : Json) (symbols : List String)
    (rows : List QuoteRow)
    (h : (fetch_stock_prices payload symbols).fst = .ok rows) :
    rows.map QuoteRow.symbol = normalizedSymbols symbols
      ∧ rows.length = (normalizedSymbols symbols).length
      ∧ ∀ r ∈ rows, ∀ lk, lookupOf payload = .ok lk → dictGet lk r.symbol = none →
          r = ⟨r.symbol, .str "", .str "", ""⟩ := by
  obtain ⟨lk0, hlk0, hmap⟩ := fetch_ok_rows h
  refine ⟨fetch_rows_symbols h, mapME_ok_length _ _ _ hmap, ?_⟩
  intro r hr lk hlk hnone
  rw [hlk0] at hlk
  injection hlk with hlk2
  subst hlk2
  obtain ⟨s, _, hs2⟩ := mapME_ok_mem _ _ _ hmap r hr
  have hsym : r.symbol = s := makeQuoteRow_symbol hs2
  rw [← hsym] at hs2
  rw [makeQuoteRow_none _ _ hnone] at hs2
  injection hs2 with h3
  exact h3.symm

theorem c5_witness :
    ([⟨"MSFT", .num 100, .str "USD", ""⟩, ⟨"AAPL", .str "", .str "", ""⟩] : List QuoteRow).map
        QuoteRow.symbol = normalizedSymbols ["msft", "aapl"]
      ∧ ([⟨"MSFT", .num 100, .str "USD", ""⟩, ⟨"AAPL", .str "", .str "", ""⟩] : List QuoteRow).length
          = (normalizedSymbols ["msft", "aapl"]).length :=
  ⟨(c5_one_row_per_symbol c5Payload ["msft", "aapl"]
      [⟨"MSFT", .num 100, .str "USD", ""⟩, ⟨"AAPL", .str "", .str "", ""⟩] (by rfl)).1,
   (c5_one_row_per_symbol c5Payload ["msft", "aapl"]
      [⟨"MSFT", .num 100, .str "USD", ""⟩, ⟨"AAPL", .str "", .str "", ""⟩] (by rfl)).2.1⟩

/-- C6: when from_alphavantage succeeds, the record's volume equals the
truncated float value of the 6-numbered volume field when that key is
present, otherwise of the 5-numbered volume field when present, otherwise
zero. -/
theorem c6_volume_fallback (sym ts : String) (fields : List (String × Json)) (p : StockPrice)
    (h : StockPrice.from_alphavantage sym ts fields = .ok p) :
    (∀ v q, assocLookup "6. volume" fields = some v → jFloat v = .ok q →
        p.volume = ratTrunc q)
      ∧ (assocLookup "6. volume" fields = none →
          (∀ v q, assocLookup "5. volume" fields = some v → jFloat v = .ok q →
              p.volume = ratTrunc q)
            ∧ (assocLookup "5. volume" fields = none → p.volume = 0)) := by
  have hv := from_alphavantage_volume h
  unfold volumeOf at hv
  constructor
  · intro v q hv6 hjf
    rw [hv6] at hv
    replace hv : (jFloat v).map ratTrunc = Except.ok p.volume := hv
    rw [hjf] at hv
    injection hv with h7
    exact h7.symm
  · intro h6
    rw [h6] at hv
    constructor
    · intro v q hv5 hjf
      rw [hv5] at hv
      replace hv : (jFloat v).map ratTrunc = Except.ok p.volume := hv
      rw [hjf] at hv
      injection hv with h7
      exact h7.symm
    · intro h5
      rw [h5] at hv
      injection hv with h7
      exact h7.symm

theorem c6_witness : (123 : Int) = ratTrunc 123 :=
  (c6_volume_fallback "X" "2024-01-02" c6Fields
      ⟨"X", ⟨2024, 1, 2, 0, 0, 0⟩, 1, 2, 1/2, 3/2, 123⟩ (by rfl)).1
    (Json.str "123") 123 (by rfl) (by rfl)

/-- C7 counterexample: a quote entry supplying the epoch-seconds market
time 0 yields an empty timestamp cell instead of its ISO-8601 UTC
rendering (which fromtimestamp would happily produce for 0), because the
code tests Python truthiness of the value rather than its presence. -/
theorem c7_counterexample :
    (fetch_stock_prices c7Payload ["aapl"]).fst = .ok [⟨"AAPL", .str "", .str "", ""⟩]
      ∧ epochToIsoUtc 0 = .ok "1970-01-01T00:00:00+00:00" :=
  ⟨rfl, rfl⟩

/-- C7 (amended): the timestamp cell of a quote row is computed by
quoteTimestamp from the entry's market-time value, and that function
renders the ISO-8601 UTC form exactly for truthy values that fromtimestamp
accepts: a nonzero integer market time within the datetime year range
(epochs -62135596800 to 253402300799) renders; a missing, null or zero
market time yields the empty string; and a nonzero market time outside
that range raises, aborting the row. -/
theorem c7_timestamp_truthiness (t t2 : Int) (lk : List (String × Json)) (s : String)
    (q : Json) (r : QuoteRow)
    (ht : t ≠ 0) (hrange : -62135596800 ≤ t ∧ t ≤ 253402300799)
    (ht2 : t2 ≠ 0) (hrange2 : t2 < -62135596800 ∨ 253402300799 < t2)
    (hd : dictGet lk s = some q) (hm : makeQuoteRow lk s = .ok r) :
    quoteTimestamp (some (.num (t : Rat))) = .ok (isoUtcOfEpoch t)
      ∧ quoteTimestamp none = .ok ""
      ∧ quoteTimestamp (some (.num 0)) = .ok ""
      ∧ quoteTimestamp (some .null) = .ok ""
      ∧ isErr (quoteTimestamp (some (.num (t2 : Rat)))) = true
      ∧ quoteTimestamp (jGet q "regularMarketTime") = .ok r.timestamp := by
  refine ⟨?_, rfl, rfl, rfl, ?_, ?_⟩
  · rw [quoteTimestamp]
    have htr : jTruthy (Json.num (t : Rat)) = true := by
      rw [jTruthy]
      rw [if_neg (by exact_mod_cast ht)]
    rw [if_pos htr]
    rw [if_pos (show ((t : Rat).den = 1) from by simp [Rat.den_intCast])]
    rw [Rat.num_intCast, epochToIsoUtc, if_pos hrange]
  · rw [quoteTimestamp]
    have htr : jTruthy (Json.num (t2 : Rat)) = true := by
      rw [jTruthy]
      rw [if_neg (by exact_mod_cast ht2)]
    rw [if_pos htr]
    rw [if_pos (show ((t2 : Rat).den = 1) from by simp [Rat.den_intCast])]
    rw [Rat.num_intCast, epochToIsoUtc]
    rw [if_neg (by rcases hrange2 with h | h <;> omega)]
    rfl
  · rw [makeQuoteRow, hd] at hm
    replace hm : (quoteTimestamp (jGet q "regularMarketTime")).map (fun ts =>
        ({ symbol := s, price := (jGet q "regularMarketPrice").getD (Json.str ""),
           currency := (jGet q "currency").getD (Json.str ""), timestamp := ts } : QuoteRow))
        = Except.ok r := hm
    obtain ⟨ts, hts, hfr⟩ := except_map_ok hm
    rw [hts, ← hfr]

theorem c7_witness :
    quoteTimestamp (some (.num ((1700000000 : Int) : Rat)))
        = .ok (isoUtcOfEpoch 1700000000)
      ∧ quoteTimestamp none = .ok ""
      ∧ quoteTimestamp (some (.num 0)) = .ok ""
      ∧ quoteTimestamp (some .null) = .ok ""
      ∧ isErr (quoteTimestamp (some (.num ((253402300800 : Int) : Rat)))) = true
      ∧ quoteTimestamp (jGet c7wQuote "regularMarketTime")
          = .ok (QuoteRow.timestamp ⟨"AAPL", .str "", .str "", "2023-11-14T22:13:20+00:00"⟩) :=
  c7_timestamp_truthiness 1700000000 253402300800 [("AAPL", c7wQuote)] "AAPL" c7wQuote
    ⟨"AAPL", .str "", .str "", "2023-11-14T22:13:20+00:00"⟩
    (by decide) (by decide) (by decide) (Or.inr (by decide)) (by rfl) (by rfl)

/-- C8: the serialized form of every OHLCV record renders each of the
open, high, low and close values in fixed-point notation with exactly four
digits after the decimal point (never scientific notation) and the volume
as a plain integer string without separators, and each CSV file consists
of its fixed schema header row written exactly once, before all data
rows. -/
theorem c8_formatting_and_header :
    (∀ data : List StockPrice,
        _prepare_rows data = tsHeaderRow :: (sortRecords data).map stockPriceRow)
      ∧ (∀ p : StockPrice, stockPriceRow p
          = [p.symbol, isoformatDT p.timestamp, formatFixed4 p.«open», formatFixed4 p.high,
             formatFixed4 p.low, formatFixed4 p.close, intToStr p.volume])
      ∧ (∀ q : Rat, isFixedPoint4 (formatFixed4 q) = true)
      ∧ (∀ i : Int, (intChars i).all (fun c => isDigitChar c || c = '-') = true)
      ∧ (∀ (payload : Json) (symbols : List String) (rows : List QuoteRow),
          (fetch_stock_prices payload symbols).fst = .ok rows →
            quoteCsvFile payload symbols = some (quoteHeaderRow :: rows.map renderQuoteRow)) :=
  ⟨fun _ => rfl, fun _ => rfl, isFixedPoint4_formatFixed4, intChars_digits,
   fun _ _ _ h => quoteCsvFile_ok h⟩

theorem c8_witness :
    quoteCsvFile c8Payload ["aapl"]
      = some (quoteHeaderRow
          :: ([⟨"AAPL", .str "", .str "", ""⟩] : List QuoteRow).map renderQuoteRow) :=
  c8_formatting_and_header.2.2.2.2 c8Payload ["aapl"] [⟨"AAPL", .str "", .str "", ""⟩] (by rfl)

/-- C9: formatting any OHLC value with the four-decimal fixed-point
serialization and parsing the resulting string back yields a value within
1e-4 of the original. -/
theorem c9_format_parse_roundtrip (q : Rat) :
    ∃ r, parseDecStr (formatFixed4 q) = some r ∧ |r - q| ≤ 1 / 10000 := by
  refine ⟨(rheInt (q * 10000) : Rat) / 10000, formatFixed4_roundtrip q, ?_⟩
  have hb := rheInt_bound (q * 10000)
  have heq : (rheInt (q * 10000) : Rat) / 10000 - q
      = ((rheInt (q * 10000) : Rat) - q * 10000) / 10000 := by ring
  rw [heq, abs_div]
  rw [abs_of_pos (by norm_num : (0 : Rat) < 10000)]
  rw [div_le_iff₀ (by norm_num : (0 : Rat) < 10000)]
  calc |(rheInt (q * 10000) : Rat) - q * 10000| ≤ 1 / 2 := hb
    _ ≤ 1 / 10000 * 10000 := by norm_num

/-- C10: _prepare_rows produces identical CSV rows for any two
permutations of a record list whose (symbol, timestamp) keys are pairwise
distinct — the output is a function of the record set alone. -/
theorem c10_order_independence (l1 l2 : List StockPrice) (hperm : l1.Perm l2)
    (hdist : l1.Pairwise recKeyNe) : _prepare_rows l1 = _prepare_rows l2 :=
  prepare_rows_perm_invariant l1 l2 hperm hdist

theorem c10_witness : _prepare_rows [c10A, c10B] = _prepare_rows [c10B, c10A] :=
  c10_order_independence [c10A, c10B] [c10B, c10A]
    (List.Perm.swap c10B c10A []) (by decide)

end ClaimProofs
